import Mathlib

/-!
Verification development for the outline-generator backend
(`backend/src/utils.py`, `backend/src/database.py`, `backend/src/chatbot.py`,
`backend/src/outline.py`, `backend/src/endpoints.py`, `backend/app.py`).

The Python code is shallowly embedded: every definition below is a direct
translation of the corresponding Python function, with text represented as
`String` / `List Char`, distances as `ℚ` (built with `mkRat` so that concrete
comparisons reduce), dictionaries as insertion-ordered association lists, and
the external oracles (vector store, generation model) as explicit inputs.
-/

/-! ## Segmenter: `utils.chunk_text` (utils.py lines 188-254)

`re.split(r'(?<=[.!?])\s+', text)` splits the text at every maximal run of
whitespace that immediately follows a sentence-terminal character. -/

/-- Python `\s` for the ASCII range (the texts involved are ASCII). -/
def pyIsSpace (c : Char) : Bool :=
  c = ' ' || c = '\t' || c = '\n' || c = '\r' || c = '\x0b' || c = '\x0c'

/-- A sentence-terminal character, the `[.!?]` of the regex. -/
def isSentenceEnd (c : Char) : Bool :=
  c = '.' || c = '!' || c = '?'

/-- Core of `re.split(r'(?<=[.!?])\s+', text)`: walk the characters keeping
the current fragment (reversed) in `acc`; `prevEnd` records whether the
character immediately before the current position is in `[.!?]`.  A whitespace
character in that situation starts a delimiter; `inDelim` is true while the
maximal whitespace run of the delimiter is being consumed. -/
def reSplitAux (inDelim : Bool) (prevEnd : Bool) (acc : List Char) :
    List Char → List (List Char)
  | [] => [acc.reverse]
  | c :: rest =>
    if inDelim then
      if pyIsSpace c then reSplitAux true false acc rest
      else reSplitAux false (isSentenceEnd c) (c :: acc) rest
    else if prevEnd && pyIsSpace c then
      acc.reverse :: reSplitAux true false [] rest
    else
      reSplitAux false (isSentenceEnd c) (c :: acc) rest

/-- Python `str.strip()` (ASCII whitespace). -/
def pyStrip (l : List Char) : List Char :=
  ((l.dropWhile pyIsSpace).reverse.dropWhile pyIsSpace).reverse

/-- `sentences = [s.strip() for s in re.split(...) if s.strip()]`. -/
def sentencesOfList (l : List Char) : List (List Char) :=
  ((reSplitAux false false [] l).map pyStrip).filter (fun s => s ≠ [])

/-- The backward walk that seeds a new chunk with trailing-sentence overlap
(utils.py lines 235-242).  The argument list is `reversed(current_chunk)`;
the result is the selected sentences in original order together with the final
`overlap_length` accumulator. -/
def overlapPick (ov : Nat) : List (List Char) → Nat → List (List Char) × Nat
  | [], accLen => ([], accLen)
  | s :: rest, accLen =>
    if accLen + s.length ≤ ov then
      let r := overlapPick ov rest (accLen + s.length + 1)
      (r.1 ++ [s], r.2)
    else
      ([], accLen)

/-- `' '.join(...)` on a list of sentences. -/
def joinSpace : List (List Char) → List Char
  | [] => []
  | [s] => s
  | s :: rest => s ++ ' ' :: joinSpace rest

/-- The loop state of the sentence-accumulation phase: `chunks` finished so
far, the `current_chunk` sentence list, and the `current_length` counter. -/
structure ChunkState where
  chunks : List (List Char)
  cur : List (List Char)
  curLen : Nat
deriving DecidableEq

/-- One iteration of `for sentence in sentences` (utils.py lines 227-248). -/
def chunkStep (cs ov : Nat) (st : ChunkState) (s : List Char) : ChunkState :=
  if st.curLen + s.length > cs && !st.cur.isEmpty then
    let p := overlapPick ov st.cur.reverse 0
    ⟨st.chunks ++ [joinSpace st.cur], p.1 ++ [s], p.2 + s.length⟩
  else
    ⟨st.chunks, st.cur ++ [s], st.curLen + s.length + 1⟩

/-- The character-based fallback loop (utils.py lines 212-221).  Each
iteration appends `text[start:start+chunk_size]`, advances
`start` to `end - overlap` and stops as soon as `end >= len(text)`.  The loop
in the source has no fuel; the `fuel` argument only totalises the embedding
and is irrelevant on every terminating run (whenever `ov < cs`, a fuel of
`t.length` is shown below to be enough). -/
def sliceLoop (t : List Char) (cs ov : Nat) : Nat → Nat → List (List Char)
  | 0, _ => []
  | fuel + 1, start =>
    if start < t.length then
      ((t.drop start).take cs) ::
        (if t.length ≤ start + cs then [] else sliceLoop t cs ov fuel (start + cs - ov))
    else []

/-- The whole fallback branch: slice from `start = 0`. -/
def sliceFallback (t : List Char) (cs ov : Nat) : List (List Char) :=
  sliceLoop t cs ov t.length 0

/-- `utils.chunk_text` on character lists. -/
def chunkTextList (l : List Char) (cs ov : Nat) : List (List Char) :=
  if l = [] then []
  else
    let sents := sentencesOfList l
    if sents = [] then sliceFallback l cs ov
    else
      let fin := sents.foldl (chunkStep cs ov) ⟨[], [], 0⟩
      fin.chunks ++ (if fin.cur = [] then [] else [joinSpace fin.cur])

/-- `utils.chunk_text(text, chunk_size, overlap)` (defaults 500 and 100 at
every call site of the repository). -/
def chunk_text (s : String) (cs ov : Nat) : List String :=
  (chunkTextList s.data cs ov).map String.mk

/-- Length of the longest sentence the splitter finds in `l` (0 if none). -/
def maxSentenceLen (l : List Char) : Nat :=
  ((sentencesOfList l).map List.length).foldr max 0

/-- Number of windows the fallback loop emits on a text of length `len > 0`
when `ov < cs`: the loop stops with the first window whose end reaches the
end of the text. -/
def numWindows (len cs ov : Nat) : Nat :=
  (len - cs + (cs - ov) - 1) / (cs - ov) + 1

/-! ## `utils.clean_filename` (utils.py lines 11-37) -/

/-- Python `str.split(sep)` for a single-character separator (keeps empty
parts). -/
def pySplitOn (sep : Char) : List Char → List (List Char)
  | [] => [[]]
  | c :: rest =>
    if c = sep then [] :: pySplitOn sep rest
    else
      match pySplitOn sep rest with
      | h :: t => (c :: h) :: t
      | [] => [[c]]

/-- Python `str.split()` without arguments: maximal non-whitespace runs,
dropping empty fragments.  `inWord` is true while a run is being collected
into `acc` (kept reversed). -/
def pySplitWsAux (inWord : Bool) (acc : List Char) : List Char → List (List Char)
  | [] => if inWord then [acc.reverse] else []
  | c :: rest =>
    if pyIsSpace c then
      if inWord then acc.reverse :: pySplitWsAux false [] rest
      else pySplitWsAux false [] rest
    else pySplitWsAux true (c :: acc) rest

def pySplitWs (l : List Char) : List (List Char) :=
  pySplitWsAux false [] l

/-- `'.'.join(parts)` / generic single-character join. -/
def joinWith (sep : Char) : List (List Char) → List Char
  | [] => []
  | [s] => s
  | s :: rest => s ++ sep :: joinWith sep rest

/-- `utils.clean_filename`: returns `none` exactly when Python returns
`None` (empty input). -/
def cleanFilenameList (l : List Char) : Option (List Char) :=
  if l = [] then none
  else
    let base := (pySplitOn '/' l).getLastD []
    let noExt := if base.contains '.' then joinWith '.' ((pySplitOn '.' base).dropLast) else base
    let repl := noExt.map (fun c => if c = '_' || c = '-' then ' ' else c)
    let collapsed := joinWith ' ' (pySplitWs repl)
    some (pyStrip collapsed)

def clean_filename (s : String) : Option String :=
  (cleanFilenameList s.data).map String.mk

/-! ## OCR ingestion: `Database.ocr_pdf` (database.py lines 83-180, identical
batching in app.py lines 259-343)

Pages are rasterised in original order; each batch of 30 page texts is joined
with `"\n\n"` and segmented separately (`batch_chunks = chunk_text(batch_text)`,
line 125); the stored chunk list is the concatenation of the per-batch chunk
lists.  The full concatenation `combined_text` (line 137) is used only for
title/author extraction. -/

/-- `"\n\n".join(parts)`. -/
def join2NL : List String → String
  | [] => ""
  | [s] => s
  | s :: rest => s ++ "\n\n" ++ join2NL rest

/-- Helper for the page batching: `cnt` is the remaining capacity of the
current batch `cur` (kept reversed). -/
def batchAux (cnt : Nat) (cur : List String) : List String → List (List String)
  | [] => if cur.isEmpty then [] else [cur.reverse]
  | p :: rest =>
    match cnt with
    | 0 => cur.reverse :: batchAux 29 [p] rest
    | k + 1 => batchAux k (p :: cur) rest

/-- The batches `pages[0:30], pages[30:60], ...` produced by
`range(0, page_count, 30)` with `batch_size = 30`. -/
def ocrBatches (pages : List String) : List (List String) :=
  batchAux 30 [] pages

/-- The chunk texts stored for a scanned PDF whose pages OCR to `pages`
(in original page order): each batch is segmented on its own with the
default parameters `chunk_size=500, overlap=100`. -/
def ocrStoredChunks (pages : List String) : List String :=
  (ocrBatches pages).flatMap (fun b => chunk_text (join2NL b) 500 100)

/-- `combined_text = "\n\n".join(all_text_parts)` of database.py line 137. -/
def ocrCombinedText (pages : List String) : String :=
  join2NL ((ocrBatches pages).map join2NL)

/-! ## Evidence aggregation (chatbot.py lines 47-112 and 269-333,
outline.py lines 37-96)

A query result from the vector store is a triple of parallel lists; the code
indexes `documents[i]` for `i in range(len(documents))` and falls back to
`{}` / `1.0` whenever `metadatas` / `distances` are shorter.  Distances are
`ℚ` here; the relevance cutoff `0.85` of the source is `mkRat 85 100`. -/

/-- A stored chunk's metadata record (absent keys are `none`). -/
structure ChunkMeta where
  source : Option String
  author : Option String
  filename : Option String
deriving DecidableEq

/-- One surviving candidate as the code stores it in `documents_data`:
`{'text': documents[i], 'distance': distance, 'metadata': metadata}`. -/
structure RawChunk where
  text : String
  distance : ℚ
  meta : ChunkMeta
deriving DecidableEq

/-- The raw oracle answer `query_results[...][0]` (parallel lists). -/
structure QueryRes where
  documents : List String
  metadatas : List ChunkMeta
  distances : List ℚ
deriving DecidableEq

/-- `metadatas[i] if i < len(metadatas) else {}`. -/
def effMeta (qr : QueryRes) (i : Nat) : ChunkMeta :=
  qr.metadatas.getD i ⟨none, none, none⟩

/-- `distances[i] if i < len(distances) else 1.0`. -/
def effDistance (qr : QueryRes) (i : Nat) : ℚ :=
  qr.distances.getD i 1

/-- The relevance threshold `0.85` (chatbot.py line 69, outline.py line 58). -/
def relevanceThreshold : ℚ := mkRat 85 100

/-- Chat grouping key: `metadata.get('source', 'Unknown Document')`
(chatbot.py line 64). -/
def chatKey (m : ChunkMeta) : String :=
  m.source.getD "Unknown Document"

/-- Outline grouping key (outline.py lines 54 and 59):
`filename = metadata.get('filename', 'Unknown Document')` and then
`doc_name = clean_filename(filename) if filename != 'Unknown Document' else
'Unknown Document'`.  `clean_filename` returns Python `None` on an empty
string, hence the `Option`. -/
def outlineKey (m : ChunkMeta) : Option String :=
  let f := m.filename.getD "Unknown Document"
  if f = "Unknown Document" then some "Unknown Document" else clean_filename f

/-- `source_author = metadata.get('author', '')` stored as
`source_author if source_author else None` (chatbot.py lines 65 and 72). -/
def authorOpt (m : ChunkMeta) : Option String :=
  let a := m.author.getD ""
  if a = "" then none else some a

/-- Appending a surviving candidate to the insertion-ordered dict
`documents_data` of the chat path: the author is recorded when the key is
first created and left untouched afterwards. -/
def insertChat (k : String) (a : Option String) (c : RawChunk) :
    List (String × Option String × List RawChunk) → List (String × Option String × List RawChunk)
  | [] => [(k, a, [c])]
  | e :: rest =>
    if e.1 = k then (e.1, e.2.1, e.2.2 ++ [c]) :: rest
    else e :: insertChat k a c rest

/-- Appending a surviving candidate to the `documents_data` dict of the
outline path (plain list values). -/
def insertOutline (k : Option String) (c : RawChunk) :
    List (Option String × List RawChunk) → List (Option String × List RawChunk)
  | [] => [(k, [c])]
  | e :: rest =>
    if e.1 = k then (e.1, e.2 ++ [c]) :: rest
    else e :: insertOutline k c rest

/-- One iteration of `for i in range(len(documents))` in the chat path
(chatbot.py lines 62-80): the candidate joins `documents_data` only when
`distance < 0.85`. -/
def chatStepF (qr : QueryRes) (acc : List (String × Option String × List RawChunk)) (i : Nat) :
    List (String × Option String × List RawChunk) :=
  let m := effMeta qr i
  let d := effDistance qr i
  if d < relevanceThreshold then
    insertChat (chatKey m) (authorOpt m) ⟨qr.documents.getD i "", d, m⟩ acc
  else acc

/-- One iteration of the same loop in the outline path (outline.py
lines 52-68). -/
def outlineStepF (qr : QueryRes) (acc : List (Option String × List RawChunk)) (i : Nat) :
    List (Option String × List RawChunk) :=
  let m := effMeta qr i
  let d := effDistance qr i
  if d < relevanceThreshold then
    insertOutline (outlineKey m) ⟨qr.documents.getD i "", d, m⟩ acc
  else acc

/-- `documents_data` after the chat organisation loop. -/
def buildDocsChat (qr : QueryRes) : List (String × Option String × List RawChunk) :=
  (List.range qr.documents.length).foldl (chatStepF qr) []

/-- `documents_data` after the outline organisation loop. -/
def buildDocsOutline (qr : QueryRes) : List (Option String × List RawChunk) :=
  (List.range qr.documents.length).foldl (outlineStepF qr) []

/-- All evidence chunks the chat path keeps (before per-document capping). -/
def chatEvidence (qr : QueryRes) : List RawChunk :=
  (buildDocsChat qr).flatMap (fun e => e.2.2)

/-- All evidence chunks the outline path keeps (before capping). -/
def outlineEvidence (qr : QueryRes) : List RawChunk :=
  (buildDocsOutline qr).flatMap (fun e => e.2)

/-- Ascending-by-distance comparison used by
`chunks.sort(key=lambda x: x['distance'])`; Python `list.sort` is stable and
ascending, which is exactly `List.insertionSort` with `≤`. -/
def distLe (a b : RawChunk) : Prop := a.distance ≤ b.distance

instance : DecidableRel distLe := fun a b => inferInstanceAs (Decidable (a.distance ≤ b.distance))

/-- Order on the outline path's grouping keys.  `sorted(...)` in Python
compares the `str` keys lexicographically; a `None` key (possible only for an
empty stored filename, which the ingestion paths never produce) would raise
`TypeError` in Python — the embedding totalises that corner by sorting `none`
first. -/
def optStrLe (a b : Option String) : Prop :=
  match a, b with
  | none, _ => True
  | some _, none => False
  | some x, some y => x ≤ y

instance : DecidableRel optStrLe := fun a b => by
  unfold optStrLe
  cases a <;> cases b <;> infer_instance

/-- The rendered chat groups (chatbot.py lines 100-112): iterate the keys in
sorted order, chunks sorted ascending by distance and truncated to the top 5.
The same data also forms the `source_chunks` payload (lines 204-218). -/
def chatGroups (qr : QueryRes) : List (String × Option String × List RawChunk) :=
  let dd := buildDocsChat qr
  ((dd.map (fun e => e.1)).insertionSort (· ≤ ·)).map (fun k =>
    match dd.find? (fun e => e.1 = k) with
    | some e => (k, e.2.1, (e.2.2.insertionSort distLe).take 5)
    | none => (k, none, []))

/-- The rendered outline groups (outline.py lines 77-94): sorted keys, chunks
sorted ascending by distance, truncated to the top 8. -/
def outlineGroups (qr : QueryRes) : List (Option String × List RawChunk) :=
  let dd := buildDocsOutline qr
  ((dd.map (fun e => e.1)).insertionSort optStrLe).map (fun k =>
    match dd.find? (fun e => e.1 = k) with
    | some e => (k, (e.2.insertionSort distLe).take 8)
    | none => (k, []))

/-! ## Citation reconciliation (chatbot.py lines 180-201 and 388-416)

`re.findall(r'\[([^\]]+)\]', text)` collects, left to right, each maximal
bracketed span: at a `[`, the span runs to the first following `]` and must be
non-empty. -/

/-- State machine for `re.findall(r'\[([^\]]+)\]', text)`: `span` is `some
acc` (content collected so far, reversed) while the scanner sits inside a
bracketed span, and `none` outside.  A span closed by `]` with empty content
is no match (the regex requires `[^\]]+`), exactly as the Python engine
resumes scanning after such a failed `[`. -/
def extractCitationsAux (span : Option (List Char)) : List Char → List (List Char)
  | [] => []
  | c :: rest =>
    match span with
    | some acc =>
      if c = ']' then
        if acc.isEmpty then extractCitationsAux none rest
        else acc.reverse :: extractCitationsAux none rest
      else extractCitationsAux (some (c :: acc)) rest
    | none =>
      if c = '[' then extractCitationsAux (some []) rest
      else extractCitationsAux none rest

/-- `re.findall(r'\[([^\]]+)\]', text)`. -/
def extractCitations (l : List Char) : List (List Char) :=
  extractCitationsAux none l

/-- `re.split(r'[;,]', citation)`: split at every `;` or `,`, keeping empty
fragments. -/
def splitSemiComma : List Char → List (List Char)
  | [] => [[]]
  | c :: rest =>
    if c = ';' || c = ',' then [] :: splitSemiComma rest
    else
      match splitSemiComma rest with
      | h :: t => (c :: h) :: t
      | [] => [[c]]

/-- The stripped citation fragments of a generated text, in scan order. -/
def citationFragments (text : String) : List String :=
  ((extractCitations text.data).flatMap splitSemiComma).map (fun f => String.mk (pyStrip f))

/-- `str.lower()` (ASCII). -/
def lowerStr (s : String) : String :=
  String.mk (s.data.map Char.toLower)

/-- Is `needle` a prefix of `hay`? -/
def listStartsWith : List Char → List Char → Bool
  | [], _ => true
  | _ :: _, [] => false
  | a :: as, b :: bs => a = b && listStartsWith as bs

/-- Python's substring test `needle in hay`. -/
def listContainsSub (needle : List Char) : List Char → Bool
  | [] => needle.isEmpty
  | c :: rest => listStartsWith needle (c :: rest) || listContainsSub needle rest

/-- The resolution of one fragment against the known source documents
(chatbot.py lines 188-193 / 400-406): the first document related to the
fragment by case-insensitive substring containment in either direction wins;
otherwise the fragment is kept verbatim. -/
def resolveOne (docs : List String) (frag : String) : String :=
  match docs.find? (fun t =>
      listContainsSub (lowerStr frag).data (lowerStr t).data ||
      listContainsSub (lowerStr t).data (lowerStr frag).data) with
  | some t => t
  | none => frag

/-- The `cited_sources` accumulation loop: a fragment is processed only when
non-empty and not already literally present in the accumulated list. -/
def citedSourcesFold (docs : List String) (frags : List String) : List String :=
  frags.foldl (fun acc frag =>
    if frag ≠ "" ∧ frag ∉ acc then acc ++ [resolveOne docs frag] else acc) []

/-- Order-preserving de-duplication (the `seen`-set loop, chatbot.py
lines 195-201 / 408-414). -/
def dedupPreserve (l : List String) : List String :=
  l.foldl (fun acc s => if s ∈ acc then acc else acc ++ [s]) []

/-- The citation list of the streaming `complete` event (chatbot.py line 223
uses `unique_cited_sources` directly). -/
def streamingCitations (text : String) (docs : List String) : List String :=
  dedupPreserve (citedSourcesFold docs (citationFragments text))

/-- The `sources` field of the non-streaming chat result (chatbot.py
line 437): `list(set(cited_sources))`.  A Python `set` of strings iterates in
an unspecified, hash-seed-dependent order, modelled by the parameter
`setOrder`; any function whose output is a permutation of its input is an
admissible behaviour. -/
def nonStreamingSources (setOrder : List String → List String)
    (text : String) (docs : List String) : List String :=
  setOrder (streamingCitations text docs)

/-! ## Streaming chat protocol: `process_chat_query_stream` (chatbot.py
lines 9-231)

The generator is embedded as a pure function from its inputs to the list of
emitted newline-delimited records.  The external effects are explicit
arguments: `cfg` tells whether the Gemini client and model are configured,
`qr` is the outcome of `collection.query` (`Except.error` when it raises),
`incs` are the text increments the generation stream yields before either
finishing or raising, and `genFail` carries the exception message when the
generation phase raises after the listed increments. -/

/-- One emitted record.  `plainError` stands for the early `{"error": ...}`
records (lines 33-44 and 82-88) which carry *no* `"type"` key; all other
constructors correspond to records tagged `metadata` / `chunk` / `complete` /
`error`. -/
inductive ChatEvent where
  | plainError (msg : String)
  | metadata (sources : List String) (authors : List (String × String))
  | chunk (content : String)
  | complete (sources : List String) (sourceChunks : List (String × Option String × List RawChunk))
  | errorEvent (msg : String)
deriving DecidableEq

/-- Does the emitted record carry a `"type"` discriminator? -/
def eventHasType : ChatEvent → Bool
  | .plainError _ => false
  | _ => true

def isChunkEvent : ChatEvent → Bool
  | .chunk _ => true
  | _ => false

def isTerminalEvent : ChatEvent → Bool
  | .complete _ _ => true
  | .errorEvent _ => true
  | _ => false

/-- `"".join`-style concatenation of the yielded increments (the code
accumulates `full_response += chunk_text` for non-empty increments only). -/
def concatStrs (l : List String) : String :=
  l.foldl (fun a b => a ++ b) ""

/-- The `sources` list of the metadata event: the group keys in sorted
order (chatbot.py lines 100-104). -/
def chatMetaSources (res : QueryRes) : List String :=
  (chatGroups res).map (fun g => g.1)

/-- The `source_authors` map (chatbot.py lines 105-106), as ordered pairs. -/
def chatMetaAuthors (res : QueryRes) : List (String × String) :=
  (chatGroups res).filterMap (fun g => g.2.1.map (fun a => (g.1, a)))

/-- The full event sequence of one `process_chat_query_stream` call. -/
def chatStreamEvents (cfg : Bool) (folder message : String)
    (qr : Except String QueryRes) (incs : List String) (genFail : Option String) :
    List ChatEvent :=
  if !cfg then
    [.plainError "Gemini API key or model not configured. Please set GEMINI_API_KEY and GEMINI_API_MODEL in .env file"]
  else if folder = "" then
    [.plainError "folder_name is required"]
  else if message = "" || String.mk (pyStrip message.data) = "" then
    [.plainError "message is required"]
  else
    match qr with
    | .error e => [.errorEvent ("Error generating response: " ++ e)]
    | .ok res =>
      if buildDocsChat res = [] then
        [.plainError "No relevant information found in the folder for this question."]
      else
        let shown := incs.filter (fun s => s ≠ "")
        ChatEvent.metadata (chatMetaSources res) (chatMetaAuthors res) ::
          shown.map ChatEvent.chunk ++
          (match genFail with
           | some e => [.errorEvent ("Error generating response: " ++ e)]
           | none =>
             [.complete (streamingCitations (concatStrs shown) (chatMetaSources res)) (chatGroups res)])

/-- The well-formedness property claimed for the stream: one `metadata`
record first, then only `chunk` records, then exactly one terminal record and
nothing after it, every record carrying a `type` discriminator. -/
def wellFormedStream (evs : List ChatEvent) : Prop :=
  (∃ srcs auths mids term,
      evs = ChatEvent.metadata srcs auths :: mids ++ [term] ∧
      (∀ e ∈ mids, isChunkEvent e = true) ∧
      isTerminalEvent term = true) ∧
  ∀ e ∈ evs, eventHasType e = true

/-! ## Outline generation: `generate_outline` (outline.py lines 7-164) and
the batch endpoint `generate_outline_endpoint` (endpoints.py lines 88-116) -/

/-- The per-question result dictionary (`question` / `outline` / `error`
keys). -/
structure OutlineEntry where
  question : String
  outline : Option String
  error : Option String
deriving DecidableEq

/-- `generate_outline` for one question, after the endpoint's configuration
and folder validation: `qr` is the outcome of `collection.query` and `gen`
the outcome of the generation call (`Except.error` both for a raised
exception and for a response without text content, which raises
`ValueError` inside the same `try`). -/
def generateOutlineModel (question : String) (qr : Except String QueryRes)
    (gen : Except String String) : OutlineEntry :=
  match qr with
  | .error e => ⟨question, none, some ("Error generating outline: " ++ e)⟩
  | .ok res =>
    if buildDocsOutline res = [] then
      ⟨question, none, some "No relevant chunks found for this question."⟩
    else
      match gen with
      | .ok txt => ⟨question, some txt, none⟩
      | .error e => ⟨question, none, some ("Error generating outline: " ++ e)⟩

/-- The value returned by the `/generate-outline` endpoint. -/
inductive BatchOutlineResult where
  | configError (msg : String)
  | folderError (msg : String)
  | outlines (entries : List OutlineEntry)
deriving DecidableEq

/-- `generate_outline_endpoint` (endpoints.py lines 88-116): after the two
validations, the questions are processed sequentially and every per-question
outcome — success or failure — is appended to `outlines`. -/
def generateOutlineEndpointModel (cfg : Bool) (folder : String) (questions : List String)
    (retr : String → Except String QueryRes) (gen : String → Except String String) :
    BatchOutlineResult :=
  if !cfg then
    .configError "Gemini API key or model not configured. Please set GEMINI_API_KEY and GEMINI_API_MODEL in .env file"
  else if folder = "" then
    .folderError "folder_name is required"
  else
    .outlines (questions.map (fun q => generateOutlineModel q (retr q) (gen q)))

/-! ## Helper lemmas on the aggregation folds -/

/-- The chunks collected by `insertChat` are those already present plus the
new one. -/
theorem flat_insertChat_perm (k : String) (a : Option String) (nc : RawChunk) :
    ∀ acc : List (String × Option String × List RawChunk),
      ((insertChat k a nc acc).flatMap fun e => e.2.2).Perm
        ((acc.flatMap fun e => e.2.2) ++ [nc]) := by
  intro acc
  induction acc with
  | nil => simp [insertChat]
  | cons e rest ih =>
    by_cases he : e.1 = k
    · simp only [insertChat, if_pos he, List.flatMap_cons, List.append_assoc]
      exact List.Perm.append_left _ (List.perm_append_comm.trans (List.Perm.refl _))
    · simp only [insertChat, if_neg he, List.flatMap_cons, List.append_assoc]
      exact List.Perm.append_left _ ih

/-- The chunks collected by `insertOutline` are those already present plus
the new one. -/
theorem flat_insertOutline_perm (k : Option String) (nc : RawChunk) :
    ∀ acc : List (Option String × List RawChunk),
      ((insertOutline k nc acc).flatMap fun e => e.2).Perm
        ((acc.flatMap fun e => e.2) ++ [nc]) := by
  intro acc
  induction acc with
  | nil => simp [insertOutline]
  | cons e rest ih =>
    by_cases he : e.1 = k
    · simp only [insertOutline, if_pos he, List.flatMap_cons, List.append_assoc]
      exact List.Perm.append_left _ (List.perm_append_comm.trans (List.Perm.refl _))
    · simp only [insertOutline, if_neg he, List.flatMap_cons, List.append_assoc]
      exact List.Perm.append_left _ ih

/-- Invariant preservation through `List.foldl`. -/
theorem foldl_invariant {α β : Type} (P : β → Prop) (f : β → α → β) :
    ∀ (l : List α) (b : β), P b → (∀ b a, P b → P (f b a)) → P (l.foldl f b) := by
  intro l
  induction l with
  | nil => intro b hb _; exact hb
  | cons a rest ih =>
    intro b hb hstep
    exact ih (f b a) (hstep b a hb) hstep

/-- Every chunk in the chat `documents_data` passed the strict filter. -/
theorem chatEvidence_below_threshold (qr : QueryRes) :
    ∀ c ∈ chatEvidence qr, c.distance < relevanceThreshold := by
  unfold chatEvidence buildDocsChat
  refine foldl_invariant
    (fun acc => ∀ c ∈ acc.flatMap fun e => e.2.2, c.distance < relevanceThreshold)
    (chatStepF qr) (List.range qr.documents.length) [] (by simp) ?_
  intro acc i hacc c hc
  simp only [chatStepF] at hc
  by_cases hd : effDistance qr i < relevanceThreshold
  · rw [if_pos hd] at hc
    rcases List.mem_append.mp ((flat_insertChat_perm _ _ _ acc).mem_iff.mp hc) with h | h
    · exact hacc c h
    · rw [List.mem_singleton.mp h]
      exact hd
  · rw [if_neg hd] at hc
    exact hacc c hc

/-- Every chunk in the outline `documents_data` passed the strict filter. -/
theorem outlineEvidence_below_threshold (qr : QueryRes) :
    ∀ c ∈ outlineEvidence qr, c.distance < relevanceThreshold := by
  unfold outlineEvidence buildDocsOutline
  refine foldl_invariant
    (fun acc => ∀ c ∈ acc.flatMap fun e => e.2, c.distance < relevanceThreshold)
    (outlineStepF qr) (List.range qr.documents.length) [] (by simp) ?_
  intro acc i hacc c hc
  simp only [outlineStepF] at hc
  by_cases hd : effDistance qr i < relevanceThreshold
  · rw [if_pos hd] at hc
    rcases List.mem_append.mp ((flat_insertOutline_perm _ _ acc).mem_iff.mp hc) with h | h
    · exact hacc c h
    · rw [List.mem_singleton.mp h]
      exact hd
  · rw [if_neg hd] at hc
    exact hacc c hc

/-! ## Claim C6 -/

/-- The distances `[0.81, 0.86, 0.90]` scenario of the specification. -/
def qrScenario : QueryRes :=
  ⟨["c1", "c2", "c3"],
   [⟨some "Doc A", none, none⟩, ⟨some "Doc A", none, none⟩, ⟨some "Doc B", none, none⟩],
   [mkRat 81 100, mkRat 86 100, mkRat 90 100]⟩

/-- C6: in both the chat and the outline aggregation paths a retrieved
candidate is kept in the evidence data only if its distance is strictly
below the fixed threshold `0.85`; on the scenario distances
`[0.81, 0.86, 0.90]` exactly the first candidate is retained. -/
theorem C6_relevance_filter (qr : QueryRes) :
    (∀ c ∈ chatEvidence qr, c.distance < relevanceThreshold) ∧
    (∀ c ∈ outlineEvidence qr, c.distance < relevanceThreshold) ∧
    buildDocsChat qrScenario =
      [("Doc A", none, [⟨"c1", mkRat 81 100, ⟨some "Doc A", none, none⟩⟩])] :=
  ⟨chatEvidence_below_threshold qr, outlineEvidence_below_threshold qr, by decide⟩

/-- Witness for C6 at the scenario query. -/
theorem C6_relevance_filter_witness :
    (⟨"c1", mkRat 81 100, ⟨some "Doc A", none, none⟩⟩ : RawChunk).distance < relevanceThreshold :=
  (C6_relevance_filter qrScenario).1 ⟨"c1", mkRat 81 100, ⟨some "Doc A", none, none⟩⟩ (by decide)

/-! ## Claim C10 -/

/-- C10: a candidate whose distance is missing from the oracle response gets
the default distance `1.0`, which fails the strict `< 0.85` test, so the
organisation step of either path leaves `documents_data` unchanged for it. -/
theorem C10_missing_distance_excluded (qr : QueryRes) (i : Nat)
    (acc : List (String × Option String × List RawChunk))
    (accO : List (Option String × List RawChunk))
    (h : qr.distances.length ≤ i) :
    effDistance qr i = 1 ∧ ¬ effDistance qr i < relevanceThreshold ∧
    chatStepF qr acc i = acc ∧ outlineStepF qr accO i = accO := by
  have h1 : effDistance qr i = 1 := List.getD_eq_default _ _ h
  have h2 : ¬ effDistance qr i < relevanceThreshold := by
    rw [h1]; decide
  refine ⟨h1, h2, ?_, ?_⟩
  · simp only [chatStepF]
    rw [if_neg h2]
  · simp only [outlineStepF]
    rw [if_neg h2]

/-- Witness for C10: a query result with one document and no distances. -/
theorem C10_missing_distance_excluded_witness :
    effDistance ⟨["c1"], [⟨some "Doc A", none, none⟩], []⟩ 0 = 1 ∧
    ¬ effDistance ⟨["c1"], [⟨some "Doc A", none, none⟩], []⟩ 0 < relevanceThreshold ∧
    chatStepF ⟨["c1"], [⟨some "Doc A", none, none⟩], []⟩ [] 0 = [] ∧
    outlineStepF ⟨["c1"], [⟨some "Doc A", none, none⟩], []⟩ [] 0 = [] :=
  C10_missing_distance_excluded ⟨["c1"], [⟨some "Doc A", none, none⟩], []⟩ 0 [] [] (by decide)

/-! ## Claim C9 -/

/-- C9: a batch outline request maps every question independently — the
endpoint returns one entry per question in input order, a per-question
generation failure produces an error entry for that question only, and a
success carries its outline. -/
theorem C9_batch_outline_isolation (cfg : Bool) (folder : String) (questions : List String)
    (retr : String → Except String QueryRes) (gen : String → Except String String)
    (h1 : cfg = true) (h2 : folder ≠ "") :
    generateOutlineEndpointModel cfg folder questions retr gen =
      .outlines (questions.map fun q => generateOutlineModel q (retr q) (gen q)) ∧
    (questions.map fun q => generateOutlineModel q (retr q) (gen q)).length = questions.length ∧
    (∀ q res txt, buildDocsOutline res ≠ [] →
        generateOutlineModel q (.ok res) (.ok txt) = ⟨q, some txt, none⟩) ∧
    (∀ q res e, buildDocsOutline res ≠ [] →
        generateOutlineModel q (.ok res) (.error e) =
          ⟨q, none, some ("Error generating outline: " ++ e)⟩) := by
  subst h1
  refine ⟨?_, by simp, ?_, ?_⟩
  · simp [generateOutlineEndpointModel, h2]
  · intro q res txt hne
    simp [generateOutlineModel, hne]
  · intro q res e hne
    simp [generateOutlineModel, hne]

/-- Witness for C9: two questions, the first failing generation and the
second succeeding, against a query result with one relevant candidate. -/
theorem C9_batch_outline_isolation_witness :
    generateOutlineEndpointModel true "folder" ["q1", "q2"]
        (fun _ => .ok qrScenario)
        (fun q => if q = "q1" then .error "boom" else .ok "OUTLINE") =
      .outlines (["q1", "q2"].map fun q =>
        generateOutlineModel q (.ok qrScenario)
          (if q = "q1" then Except.error "boom" else Except.ok "OUTLINE")) :=
  (C9_batch_outline_isolation true "folder" ["q1", "q2"] (fun _ => .ok qrScenario)
    (fun q => if q = "q1" then .error "boom" else .ok "OUTLINE") rfl (by decide)).1

/-! ## Claim C1 -/

/-- `batchAux` when the whole remaining page list fits into the current
batch's capacity. -/
theorem batchAux_small :
    ∀ (pages : List String) (cnt : Nat) (cur : List String), pages.length ≤ cnt →
      batchAux cnt cur pages =
        if cur = [] ∧ pages = [] then [] else [cur.reverse ++ pages] := by
  intro pages
  induction pages with
  | nil =>
    intro cnt cur _
    cases cur <;> simp [batchAux]
  | cons p rest ih =>
    intro cnt cur h
    match cnt with
    | 0 => simp at h
    | k + 1 =>
      have hk : rest.length ≤ k := by simpa using h
      rw [show batchAux (k + 1) cur (p :: rest) = batchAux k (p :: cur) rest from rfl,
        ih k (p :: cur) hk]
      simp

/-- `batchAux` when the remaining pages overflow the current capacity: the
current batch closes after `cnt` more pages and batching restarts at 30. -/
theorem batchAux_overflow :
    ∀ (pages : List String) (cnt : Nat) (cur : List String), cnt < pages.length →
      batchAux cnt cur pages =
        (cur.reverse ++ pages.take cnt) :: ocrBatches (pages.drop cnt) := by
  intro pages
  induction pages with
  | nil => intro cnt cur h; simp at h
  | cons p rest ih =>
    intro cnt cur h
    match cnt with
    | 0 => simp [batchAux, ocrBatches]
    | k + 1 =>
      have hk : k < rest.length := by simpa using h
      rw [show batchAux (k + 1) cur (p :: rest) = batchAux k (p :: cur) rest from rfl,
        ih k (p :: cur) hk]
      simp

/-- `"\n\n".join` over an append of non-empty lists. -/
theorem join2NL_append :
    ∀ (a b : List String), a ≠ [] → b ≠ [] →
      join2NL (a ++ b) = join2NL a ++ "\n\n" ++ join2NL b := by
  intro a
  induction a with
  | nil => intro b h _; exact absurd rfl h
  | cons x a' ih =>
    intro b _ hb
    match a' with
    | [] =>
      match b with
      | [] => exact absurd rfl hb
      | y :: b' => simp [join2NL, String.append_assoc]
    | z :: a'' =>
      have h1 : (z :: a'') ++ b ≠ [] := by simp
      calc join2NL (x :: (z :: a'' ++ b))
          = x ++ "\n\n" ++ join2NL (z :: a'' ++ b) := by
            cases h2 : z :: a'' ++ b with
            | nil => exact absurd h2 h1
            | cons w l => rw [← h2]; rfl
        _ = x ++ "\n\n" ++ (join2NL (z :: a'') ++ "\n\n" ++ join2NL b) := by
            rw [ih b (by simp) hb]
        _ = (x ++ "\n\n" ++ join2NL (z :: a'')) ++ "\n\n" ++ join2NL b := by
            simp [String.append_assoc]
        _ = join2NL (x :: z :: a'') ++ "\n\n" ++ join2NL b := rfl

/-- Batching never produces an empty batch list from a non-empty page
list. -/
theorem ocrBatches_ne_nil (pages : List String) (h : pages ≠ []) :
    ocrBatches pages ≠ [] := by
  match pages with
  | [] => exact absurd rfl h
  | p :: rest =>
    unfold ocrBatches
    by_cases hle : (p :: rest).length ≤ 30
    · rw [batchAux_small _ _ _ hle]
      simp
    · rw [batchAux_overflow _ _ _ (by omega)]
      simp

/-- The `combined_text` of database.py line 137 — `"\n\n".join` of the batch
texts — coincides with joining all page texts in original page order. -/
theorem ocrCombinedText_eq (pages : List String) :
    ocrCombinedText pages = join2NL pages := by
  suffices h : ∀ (n : Nat) (l : List String), l.length ≤ n →
      join2NL ((ocrBatches l).map join2NL) = join2NL l by
    exact h pages.length pages le_rfl
  intro n
  induction n with
  | zero =>
    intro l hl
    have : l = [] := List.length_eq_zero.mp (Nat.le_zero.mp hl)
    subst this
    rfl
  | succ m ih =>
    intro l hl
    match hlnil : l with
    | [] => rfl
    | p :: rest =>
      by_cases h30 : (p :: rest).length ≤ 30
      · unfold ocrBatches
        rw [batchAux_small _ _ _ h30]
        simp [join2NL]
      · have hlt : 30 < (p :: rest).length := by omega
        unfold ocrBatches
        rw [batchAux_overflow _ _ _ hlt]
        have hdropne : (p :: rest).drop 30 ≠ [] := by
          intro hcon
          have := List.drop_eq_nil_iff.mp hcon
          omega
        have hbatchne : (ocrBatches ((p :: rest).drop 30)).map join2NL ≠ [] := by
          intro hcon
          exact ocrBatches_ne_nil _ hdropne (List.map_eq_nil_iff.mp hcon)
        have htake : List.take 30 (p :: rest) ≠ [] := by simp
        calc join2NL (((p :: rest).take 30 :: ocrBatches ((p :: rest).drop 30)).map join2NL)
            = join2NL ([join2NL ((p :: rest).take 30)] ++
                (ocrBatches ((p :: rest).drop 30)).map join2NL) := by simp
          _ = join2NL ((p :: rest).take 30) ++ "\n\n" ++
                join2NL ((ocrBatches ((p :: rest).drop 30)).map join2NL) :=
              join2NL_append _ _ (by simp) hbatchne
          _ = join2NL ((p :: rest).take 30) ++ "\n\n" ++ join2NL ((p :: rest).drop 30) := by
              rw [ih _ (by simp at hl ⊢; omega)]
          _ = join2NL ((p :: rest).take 30 ++ (p :: rest).drop 30) :=
              (join2NL_append _ _ htake hdropne).symm
          _ = join2NL (p :: rest) := by rw [List.take_append_drop]

/-- C1 counterexample: a 31-page scanned PDF whose pages each OCR to `"."`.
The two batches are segmented separately, so two chunks are stored, while
segmenting the full concatenation of the page texts yields a single chunk:
the stored chunks are *not* the segmentation of the concatenated text, i.e.
the 30-page batch boundary does affect which chunks are produced. -/
theorem C1_counterexample :
    ocrStoredChunks (List.replicate 31 ".") ≠
      chunk_text (join2NL (List.replicate 31 ".")) 500 100 ∧
    (ocrStoredChunks (List.replicate 31 ".")).length = 2 ∧
    (chunk_text (join2NL (List.replicate 31 ".")) 500 100).length = 1 := by
  refine ⟨?_, ?_, ?_⟩ <;> first
    | (set_option maxRecDepth 4000 in decide)

/-- C1 amended: the stored chunks of a scanned PDF equal the segmentation of
the concatenation of all page texts only when the document fits in a single
OCR batch (at most 30 pages); each batch of 30 pages is segmented
separately. -/
theorem C1_single_batch_segmentation (pages : List String) (h : pages.length ≤ 30) :
    ocrStoredChunks pages = chunk_text (join2NL pages) 500 100 := by
  match hp : pages with
  | [] => rfl
  | p :: rest =>
    unfold ocrStoredChunks ocrBatches
    rw [batchAux_small _ _ _ h]
    simp

/-- Witness for the amended C1 on a concrete two-page document. -/
theorem C1_single_batch_segmentation_witness :
    ocrStoredChunks ["First page text.", "Second page."] =
      chunk_text (join2NL ["First page text.", "Second page."]) 500 100 :=
  C1_single_batch_segmentation ["First page text.", "Second page."] (by decide)

/-! ## Claim C5 -/

/-- Keys after `insertChat`: unchanged when the key already exists, appended
otherwise. -/
theorem keys_insertChat (k : String) (a : Option String) (c : RawChunk) :
    ∀ acc : List (String × Option String × List RawChunk),
      (insertChat k a c acc).map (fun e => e.1) =
        if k ∈ acc.map (fun e => e.1) then acc.map (fun e => e.1)
        else acc.map (fun e => e.1) ++ [k] := by
  intro acc
  induction acc with
  | nil => simp [insertChat]
  | cons e rest ih =>
    by_cases he : e.1 = k
    · simp [insertChat, he]
    · simp only [insertChat, if_neg he, List.map_cons, ih, List.mem_cons]
      by_cases hk : k ∈ rest.map (fun e => e.1)
      · simp [hk, he, Ne.symm he]
      · simp [hk, he, Ne.symm he]

/-- Keys after `insertOutline`. -/
theorem keys_insertOutline (k : Option String) (c : RawChunk) :
    ∀ acc : List (Option String × List RawChunk),
      (insertOutline k c acc).map (fun e => e.1) =
        if k ∈ acc.map (fun e => e.1) then acc.map (fun e => e.1)
        else acc.map (fun e => e.1) ++ [k] := by
  intro acc
  induction acc with
  | nil => simp [insertOutline]
  | cons e rest ih =>
    by_cases he : e.1 = k
    · simp [insertOutline, he]
    · simp only [insertOutline, if_neg he, List.map_cons, ih, List.mem_cons]
      by_cases hk : k ∈ rest.map (fun e => e.1)
      · simp [hk, he, Ne.symm he]
      · simp [hk, he, Ne.symm he]

/-- Key membership through one chat organisation step. -/
theorem mem_keys_chatStepF (qr : QueryRes) (acc : List (String × Option String × List RawChunk))
    (i : Nat) (k : String) :
    k ∈ (chatStepF qr acc i).map (fun e => e.1) ↔
      k ∈ acc.map (fun e => e.1) ∨
        (effDistance qr i < relevanceThreshold ∧ chatKey (effMeta qr i) = k) := by
  simp only [chatStepF]
  by_cases hd : effDistance qr i < relevanceThreshold
  · rw [if_pos hd, keys_insertChat]
    by_cases hk : chatKey (effMeta qr i) ∈ acc.map (fun e => e.1)
    · rw [if_pos hk]
      constructor
      · exact fun h => Or.inl h
      · rintro (h | ⟨-, hkk⟩)
        · exact h
        · exact hkk ▸ hk
    · rw [if_neg hk]
      simp only [List.mem_append, List.mem_singleton]
      constructor
      · rintro (h | h)
        · exact Or.inl h
        · exact Or.inr ⟨hd, h.symm⟩
      · rintro (h | ⟨-, hkk⟩)
        · exact Or.inl h
        · exact Or.inr hkk.symm
  · rw [if_neg hd]
    simp [hd]

/-- Key membership through one outline organisation step. -/
theorem mem_keys_outlineStepF (qr : QueryRes) (acc : List (Option String × List RawChunk))
    (i : Nat) (k : Option String) :
    k ∈ (outlineStepF qr acc i).map (fun e => e.1) ↔
      k ∈ acc.map (fun e => e.1) ∨
        (effDistance qr i < relevanceThreshold ∧ outlineKey (effMeta qr i) = k) := by
  simp only [outlineStepF]
  by_cases hd : effDistance qr i < relevanceThreshold
  · rw [if_pos hd, keys_insertOutline]
    by_cases hk : outlineKey (effMeta qr i) ∈ acc.map (fun e => e.1)
    · rw [if_pos hk]
      constructor
      · exact fun h => Or.inl h
      · rintro (h | ⟨-, hkk⟩)
        · exact h
        · exact hkk ▸ hk
    · rw [if_neg hk]
      simp only [List.mem_append, List.mem_singleton]
      constructor
      · rintro (h | h)
        · exact Or.inl h
        · exact Or.inr ⟨hd, h.symm⟩
      · rintro (h | ⟨-, hkk⟩)
        · exact Or.inl h
        · exact Or.inr hkk.symm
  · rw [if_neg hd]
    simp [hd]

/-- Key membership through the whole chat fold. -/
theorem mem_keys_foldl_chat (qr : QueryRes) :
    ∀ (l : List Nat) (acc : List (String × Option String × List RawChunk)) (k : String),
      k ∈ (l.foldl (chatStepF qr) acc).map (fun e => e.1) ↔
        k ∈ acc.map (fun e => e.1) ∨
          ∃ i ∈ l, effDistance qr i < relevanceThreshold ∧ chatKey (effMeta qr i) = k := by
  intro l
  induction l with
  | nil => simp
  | cons i l' ih =>
    intro acc k
    rw [List.foldl_cons, ih, mem_keys_chatStepF]
    simp only [List.mem_cons]
    constructor
    · rintro ((h | h) | ⟨j, hj, hc⟩)
      · exact Or.inl h
      · exact Or.inr ⟨i, Or.inl rfl, h⟩
      · exact Or.inr ⟨j, Or.inr hj, hc⟩
    · rintro (h | ⟨j, (rfl | hj), hc⟩)
      · exact Or.inl (Or.inl h)
      · exact Or.inl (Or.inr hc)
      · exact Or.inr ⟨j, hj, hc⟩

/-- Key membership through the whole outline fold. -/
theorem mem_keys_foldl_outline (qr : QueryRes) :
    ∀ (l : List Nat) (acc : List (Option String × List RawChunk)) (k : Option String),
      k ∈ (l.foldl (outlineStepF qr) acc).map (fun e => e.1) ↔
        k ∈ acc.map (fun e => e.1) ∨
          ∃ i ∈ l, effDistance qr i < relevanceThreshold ∧ outlineKey (effMeta qr i) = k := by
  intro l
  induction l with
  | nil => simp
  | cons i l' ih =>
    intro acc k
    rw [List.foldl_cons, ih, mem_keys_outlineStepF]
    simp only [List.mem_cons]
    constructor
    · rintro ((h | h) | ⟨j, hj, hc⟩)
      · exact Or.inl h
      · exact Or.inr ⟨i, Or.inl rfl, h⟩
      · exact Or.inr ⟨j, Or.inr hj, hc⟩
    · rintro (h | ⟨j, (rfl | hj), hc⟩)
      · exact Or.inl (Or.inl h)
      · exact Or.inl (Or.inr hc)
      · exact Or.inr ⟨j, hj, hc⟩

/-- C5 counterexample: a single retrieved candidate whose metadata carries
both a title (`source = "My Great Title"`) and a filename
(`paper_one.pdf`).  The outline aggregation groups it under the
filename-derived key `"paper one"`, not under its document title, although
the title metadata is present — refuting the claim that both paths group by
document title with filename-derived fallback only when the title is
absent. -/
theorem C5_counterexample :
    buildDocsOutline
        ⟨["txt"], [⟨some "My Great Title", none, some "paper_one.pdf"⟩], [mkRat 1 2]⟩ =
      [(some "paper one",
        [⟨"txt", mkRat 1 2, ⟨some "My Great Title", none, some "paper_one.pdf"⟩⟩])] ∧
    (⟨some "My Great Title", none, some "paper_one.pdf"⟩ : ChunkMeta).source ≠
      some "paper one" := by
  exact ⟨by decide, by decide⟩

/-- C5 amended: the chat path groups by the `source` (title) metadata with
the literal `"Unknown Document"` fallback when it is absent, while the
outline path always groups by the cleaned filename — even when title
metadata is present — with `"Unknown Document"` when the filename is absent:
a key occurs in `documents_data` exactly when some surviving candidate maps
to it under the respective key function. -/
theorem C5_grouping_keys (qr : QueryRes) (k : String) (k' : Option String) :
    (k ∈ (buildDocsChat qr).map (fun e => e.1) ↔
      ∃ i, i < qr.documents.length ∧ effDistance qr i < relevanceThreshold ∧
        chatKey (effMeta qr i) = k) ∧
    (k' ∈ (buildDocsOutline qr).map (fun e => e.1) ↔
      ∃ i, i < qr.documents.length ∧ effDistance qr i < relevanceThreshold ∧
        outlineKey (effMeta qr i) = k') := by
  constructor
  · rw [buildDocsChat, mem_keys_foldl_chat]
    simp [List.mem_range]
  · rw [buildDocsOutline, mem_keys_foldl_outline]
    simp [List.mem_range]

/-- Witness for the amended C5: on the scenario query the chat key
`"Doc A"` is present because candidate 0 survives with that title, and the
outline key `"Unknown Document"` is present because candidate 0 has no
filename metadata. -/
theorem C5_grouping_keys_witness :
    "Doc A" ∈ (buildDocsChat qrScenario).map (fun e => e.1) ∧
    (some "Unknown Document") ∈ (buildDocsOutline qrScenario).map (fun e => e.1) :=
  ⟨(C5_grouping_keys qrScenario "Doc A" (some "Unknown Document")).1.mpr
      ⟨0, by decide, by decide, by decide⟩,
   (C5_grouping_keys qrScenario "Doc A" (some "Unknown Document")).2.mpr
      ⟨0, by decide, by decide, by decide⟩⟩

/-! ## Claim C3 -/

/-- C3: the streaming path emits the deduplicated citation list in
first-occurrence order (both on the specification's scenario and on a
two-citation text), but the non-streaming result wraps the same list in
`list(set(...))` (chatbot.py line 437), whose iteration order is
unspecified: there is an admissible set ordering under which the
`sources` field differs from the first-occurrence-order list that the code
itself computed on the line before. -/
theorem C3_citation_dedup_order :
    streamingCitations "Evidence from [Doc A; Doc B] confirms this."
        ["Doc A", "Doc B", "Doc C"] = ["Doc A", "Doc B"] ∧
    streamingCitations "See [Doc B] and [Doc A]." ["Doc A", "Doc B"] = ["Doc B", "Doc A"] ∧
    ∃ setOrder : List String → List String,
      (∀ l, (setOrder l).Perm l) ∧
      nonStreamingSources setOrder "See [Doc B] and [Doc A]." ["Doc A", "Doc B"] ≠
        streamingCitations "See [Doc B] and [Doc A]." ["Doc A", "Doc B"] :=
  ⟨by decide, by decide, List.reverse, fun l => List.reverse_perm l, by decide⟩

/-! ## Claim C4 -/

/-- C4 counterexample: a chat call with the Gemini client unconfigured emits
a single `{"error": ...}` record that carries no `type` discriminator and is
preceded by no `metadata` event — the claimed event grammar does not hold
for every streaming call. -/
theorem C4_counterexample :
    chatStreamEvents false "folder" "hello" (.ok qrScenario) [] none =
      [ChatEvent.plainError "Gemini API key or model not configured. Please set GEMINI_API_KEY and GEMINI_API_MODEL in .env file"] ∧
    ¬ wellFormedStream (chatStreamEvents false "folder" "hello" (.ok qrScenario) [] none) := by
  constructor
  · decide
  · intro h
    rcases h with ⟨-, htyped⟩
    have hmem : ChatEvent.plainError "Gemini API key or model not configured. Please set GEMINI_API_KEY and GEMINI_API_MODEL in .env file" ∈
        chatStreamEvents false "folder" "hello" (.ok qrScenario) [] none := by decide
    have := htyped _ hmem
    simp [eventHasType] at this

/-- Any event list of the shape `metadata :: chunks ++ [terminal]` with a
typed terminal is well-formed. -/
theorem wellFormedStream_shape (srcs : List String) (auths : List (String × String))
    (mids : List String) (term : ChatEvent)
    (hterm : isTerminalEvent term = true) (htermty : eventHasType term = true) :
    wellFormedStream (ChatEvent.metadata srcs auths :: mids.map ChatEvent.chunk ++ [term]) := by
  constructor
  · refine ⟨srcs, auths, mids.map ChatEvent.chunk, term, rfl, ?_, hterm⟩
    intro e he
    rcases List.mem_map.mp he with ⟨s, -, rfl⟩
    rfl
  · intro e he
    rcases List.mem_cons.mp he with rfl | he'
    · rfl
    · rcases List.mem_append.mp he' with hm | hm
      · rcases List.mem_map.mp hm with ⟨s, -, rfl⟩
        rfl
      · rw [List.mem_singleton.mp hm]
        exact htermty

/-- C4 amended: for every chat streaming call that passes the configuration
and input validations, whose retrieval succeeds and which retains at least
one relevant candidate, the emitted sequence is exactly one `metadata`
record, then one `chunk` record per non-empty increment, then exactly one
terminal record — `complete`, or `error` in its place when generation fails —
with nothing after the terminal record and a `type` discriminator on every
record; calls that fail the early validations or find no relevant evidence
instead emit a single error record without a `type` key. -/
theorem C4_stream_shape (cfg : Bool) (folder message : String) (res : QueryRes)
    (incs : List String) (genFail : Option String)
    (h1 : cfg = true) (h2 : folder ≠ "") (h3 : String.mk (pyStrip message.data) ≠ "")
    (h4 : buildDocsChat res ≠ []) :
    chatStreamEvents cfg folder message (.ok res) incs genFail =
      ChatEvent.metadata (chatMetaSources res) (chatMetaAuthors res) ::
        (incs.filter (fun s => s ≠ "")).map ChatEvent.chunk ++
        [match genFail with
         | some e => ChatEvent.errorEvent ("Error generating response: " ++ e)
         | none =>
           ChatEvent.complete
             (streamingCitations (concatStrs (incs.filter (fun s => s ≠ "")))
               (chatMetaSources res))
             (chatGroups res)] ∧
    wellFormedStream (chatStreamEvents cfg folder message (.ok res) incs genFail) := by
  subst h1
  have hmsg : ¬ ((message = "" : Bool) || (String.mk (pyStrip message.data) = "" : Bool)) = true := by
    intro hcon
    rcases Bool.or_eq_true_iff.mp hcon with h | h
    · have hm : message = "" := of_decide_eq_true h
      exact h3 (by rw [hm]; rfl)
    · exact h3 (of_decide_eq_true h)
  have hshape : chatStreamEvents true folder message (.ok res) incs genFail =
      ChatEvent.metadata (chatMetaSources res) (chatMetaAuthors res) ::
        (incs.filter (fun s => s ≠ "")).map ChatEvent.chunk ++
        [match genFail with
         | some e => ChatEvent.errorEvent ("Error generating response: " ++ e)
         | none =>
           ChatEvent.complete
             (streamingCitations (concatStrs (incs.filter (fun s => s ≠ "")))
               (chatMetaSources res))
             (chatGroups res)] := by
    unfold chatStreamEvents
    rw [if_neg (by simp), if_neg h2, if_neg hmsg]
    dsimp only
    rw [if_neg h4]
    cases genFail <;> rfl
  refine ⟨hshape, ?_⟩
  rw [hshape]
  cases genFail with
  | none => exact wellFormedStream_shape _ _ _ _ rfl rfl
  | some e => exact wellFormedStream_shape _ _ _ _ rfl rfl

/-- Witness for the amended C4 on a concrete successful call with one
increment and no generation failure. -/
theorem C4_stream_shape_witness :
    wellFormedStream (chatStreamEvents true "folder" "hello" (.ok qrScenario)
      ["An answer [Doc A]."] none) :=
  (C4_stream_shape true "folder" "hello" qrScenario ["An answer [Doc A]."] none
    rfl (by decide) (by decide) (by decide)).2

/-! ## Claim C7 -/

instance : IsTotal RawChunk distLe :=
  ⟨fun a b => le_total a.distance b.distance⟩

instance : IsTrans RawChunk distLe :=
  ⟨fun _ _ _ hab hbc => le_trans hab hbc⟩

instance : IsTotal (Option String) optStrLe :=
  ⟨fun a b => by
    cases a <;> cases b
    · simp [optStrLe]
    · simp [optStrLe]
    · simp [optStrLe]
    · simp only [optStrLe]
      exact le_total _ _⟩

instance : IsTrans (Option String) optStrLe :=
  ⟨fun a b c hab hbc => by
    cases a with
    | none => trivial
    | some x =>
      cases b with
      | none => exact hab.elim
      | some y =>
        cases c with
        | none => exact hbc.elim
        | some z => exact le_trans hab hbc⟩

/-- The first components of the rendered chat groups are exactly the sorted
key list. -/
theorem chatGroups_keys (qr : QueryRes) :
    (chatGroups qr).map (fun g => g.1) =
      ((buildDocsChat qr).map (fun e => e.1)).insertionSort (· ≤ ·) := by
  unfold chatGroups
  rw [List.map_map]
  refine List.map_congr_left ?_ |>.trans (List.map_id _)
  intro k _
  cases h : (buildDocsChat qr).find? (fun e => e.1 = k) <;> simp [h]

/-- The first components of the rendered outline groups are exactly the
sorted key list. -/
theorem outlineGroups_keys (qr : QueryRes) :
    (outlineGroups qr).map (fun g => g.1) =
      ((buildDocsOutline qr).map (fun e => e.1)).insertionSort optStrLe := by
  unfold outlineGroups
  rw [List.map_map]
  refine List.map_congr_left ?_ |>.trans (List.map_id _)
  intro k _
  cases h : (buildDocsOutline qr).find? (fun e => e.1 = k) <;> simp [h]

/-- C7: every rendered Document Group is sorted ascending by distance and
holds at most 5 evidence chunks in the chat path and at most 8 in the
outline path, and in both paths the groups are rendered in sorted order of
their document identities. -/
theorem C7_groups_sorted_capped (qr : QueryRes) :
    List.Sorted (· ≤ ·) ((chatGroups qr).map (fun g => g.1)) ∧
    (∀ g ∈ chatGroups qr, g.2.2.length ≤ 5 ∧ List.Sorted distLe g.2.2) ∧
    List.Sorted optStrLe ((outlineGroups qr).map (fun g => g.1)) ∧
    (∀ g ∈ outlineGroups qr, g.2.length ≤ 8 ∧ List.Sorted distLe g.2) := by
  refine ⟨?_, ?_, ?_, ?_⟩
  · rw [chatGroups_keys]
    exact List.sorted_insertionSort _ _
  · intro g hg
    unfold chatGroups at hg
    rcases List.mem_map.mp hg with ⟨k, -, rfl⟩
    cases h : (buildDocsChat qr).find? (fun e => e.1 = k) with
    | none =>
      simp only [h]
      exact ⟨by simp, by simp [List.Sorted]⟩
    | some e =>
      simp only [h]
      refine ⟨List.length_take_le _ _, ?_⟩
      exact (List.sorted_insertionSort distLe e.2.2).sublist (List.take_sublist _ _)
  · rw [outlineGroups_keys]
    exact List.sorted_insertionSort _ _
  · intro g hg
    unfold outlineGroups at hg
    rcases List.mem_map.mp hg with ⟨k, -, rfl⟩
    cases h : (buildDocsOutline qr).find? (fun e => e.1 = k) with
    | none =>
      simp only [h]
      exact ⟨by simp, by simp [List.Sorted]⟩
    | some e =>
      simp only [h]
      refine ⟨List.length_take_le _ _, ?_⟩
      exact (List.sorted_insertionSort distLe e.2).sublist (List.take_sublist _ _)

/-- Witness for C7: the scenario query's single chat group is within the
cap and sorted. -/
theorem C7_groups_sorted_capped_witness :
    ("Doc A", (none : Option String),
        [(⟨"c1", mkRat 81 100, ⟨some "Doc A", none, none⟩⟩ : RawChunk)]).2.2.length ≤ 5 ∧
    List.Sorted distLe ("Doc A", (none : Option String),
        [(⟨"c1", mkRat 81 100, ⟨some "Doc A", none, none⟩⟩ : RawChunk)]).2.2 :=
  (C7_groups_sorted_capped qrScenario).2.1 _ (by decide)

/-! ## Claim C2 -/

/-- The "weighted length" of a sentence list: total characters plus one
separator per sentence (the quantity `current_length` tracks after each
append). -/
def wlen (ss : List (List Char)) : Nat :=
  (ss.map (fun s => s.length + 1)).sum

theorem wlen_append_single (a : List (List Char)) (s : List Char) :
    wlen (a ++ [s]) = wlen a + s.length + 1 := by
  simp [wlen]
  omega

/-- `' '.join` length: one less than the weighted length. -/
theorem joinSpace_length :
    ∀ ss : List (List Char), ss ≠ [] → (joinSpace ss).length + 1 = wlen ss := by
  intro ss
  induction ss with
  | nil => intro h; exact absurd rfl h
  | cons s rest ih =>
    intro _
    match rest with
    | [] => simp [joinSpace, wlen]
    | r :: rest' =>
      have := ih (by simp)
      simp only [joinSpace, List.length_append, List.length_cons, wlen, List.map_cons,
        List.sum_cons] at *
      omega

/-- The overlap accumulator equals the initial value plus the weighted
length of the selected sentences. -/
theorem overlapPick_snd (ov : Nat) :
    ∀ (l : List (List Char)) (a : Nat),
      (overlapPick ov l a).2 = a + wlen (overlapPick ov l a).1 := by
  intro l
  induction l with
  | nil => intro a; simp [overlapPick, wlen]
  | cons s rest ih =>
    intro a
    by_cases h : a + s.length ≤ ov
    · simp only [overlapPick, if_pos h]
      rw [ih (a + s.length + 1), wlen_append_single]
      omega
    · simp [overlapPick, if_neg h, wlen]

/-- The overlap accumulator never exceeds `overlap + 1`. -/
theorem overlapPick_snd_le (ov : Nat) :
    ∀ (l : List (List Char)) (a : Nat), a ≤ ov + 1 → (overlapPick ov l a).2 ≤ ov + 1 := by
  intro l
  induction l with
  | nil => intro a ha; simpa [overlapPick] using ha
  | cons s rest ih =>
    intro a ha
    by_cases h : a + s.length ≤ ov
    · simp only [overlapPick, if_pos h]
      exact ih (a + s.length + 1) (by omega)
    · simpa [overlapPick, if_neg h] using ha

/-- Every sentence's length is bounded by `maxSentenceLen`. -/
theorem length_le_maxSentenceLen (l : List Char) :
    ∀ s ∈ sentencesOfList l, s.length ≤ maxSentenceLen l := by
  unfold maxSentenceLen
  generalize sentencesOfList l = ss
  induction ss with
  | nil => simp
  | cons s rest ih =>
    intro x hx
    rcases List.mem_cons.mp hx with rfl | hx'
    · simp only [List.map_cons, List.foldr_cons]
      exact le_max_left _ _
    · simp only [List.map_cons, List.foldr_cons]
      exact le_trans (ih x hx') (le_max_right _ _)

/-- Invariant preservation through `List.foldl`, with membership of the
consumed element available to the step hypothesis. -/
theorem foldl_invariant_mem {α β : Type} (P : β → Prop) (f : β → α → β) :
    ∀ (l : List α) (b : β), P b → (∀ b a, a ∈ l → P b → P (f b a)) → P (l.foldl f b) := by
  intro l
  induction l with
  | nil => intro b hb _; exact hb
  | cons a rest ih =>
    intro b hb hstep
    exact ih (f b a) (hstep b a (by simp) hb)
      (fun b' a' ha' hb' => hstep b' a' (List.mem_cons_of_mem _ ha') hb')

/-- One accumulation step preserves the chunk-length invariant with bound
`max (cs + 1) (ov + 1 + M)`, where `M` bounds the sentence lengths. -/
theorem chunkStep_inv (cs ov M : Nat) (st : ChunkState) (s : List Char)
    (hs : s.length ≤ M)
    (h1 : ∀ c ∈ st.chunks, c.length ≤ max (cs + 1) (ov + 1 + M))
    (h2 : (joinSpace st.cur).length ≤ st.curLen)
    (h3 : st.cur ≠ [] → (joinSpace st.cur).length ≤ max (cs + 1) (ov + 1 + M)) :
    (∀ c ∈ (chunkStep cs ov st s).chunks, c.length ≤ max (cs + 1) (ov + 1 + M)) ∧
    (joinSpace (chunkStep cs ov st s).cur).length ≤ (chunkStep cs ov st s).curLen ∧
    ((chunkStep cs ov st s).cur ≠ [] →
      (joinSpace (chunkStep cs ov st s).cur).length ≤ max (cs + 1) (ov + 1 + M)) := by
  unfold chunkStep
  by_cases hcond : (st.curLen + s.length > cs && !st.cur.isEmpty) = true
  · rw [if_pos hcond]
    have hcur : st.cur ≠ [] := by
      rcases Bool.and_eq_true_iff.mp hcond with ⟨-, h⟩
      intro hn
      rw [hn] at h
      simp at h
    have hjoin : (joinSpace ((overlapPick ov st.cur.reverse 0).1 ++ [s])).length =
        (overlapPick ov st.cur.reverse 0).2 + s.length := by
      have hne : (overlapPick ov st.cur.reverse 0).1 ++ [s] ≠ [] := by simp
      have hw := joinSpace_length _ hne
      rw [wlen_append_single] at hw
      have hp := overlapPick_snd ov st.cur.reverse 0
      omega
    refine ⟨?_, ?_, ?_⟩
    · intro c hc
      rcases List.mem_append.mp hc with h | h
      · exact h1 c h
      · rw [List.mem_singleton.mp h]
        exact h3 hcur
    · simp only
      rw [hjoin]
    · intro _
      simp only
      rw [hjoin]
      have := overlapPick_snd_le ov st.cur.reverse 0 (by omega)
      refine le_trans ?_ (le_max_right _ _)
      omega
  · rw [if_neg hcond]
    have hne : st.cur ++ [s] ≠ [] := by simp
    have hw := joinSpace_length _ hne
    rw [wlen_append_single] at hw
    by_cases hst : st.cur = []
    · have hwnil : wlen st.cur = 0 := by rw [hst]; rfl
      refine ⟨h1, ?_, ?_⟩
      · simp only
        omega
      · intro _
        simp only
        have hb : (joinSpace (st.cur ++ [s])).length ≤ ov + 1 + M := by omega
        exact le_trans hb (le_max_right _ _)
    · have hc := joinSpace_length st.cur hst
      have hle : st.curLen + s.length ≤ cs := by
        by_contra hgt
        apply hcond
        rw [Bool.and_eq_true_iff]
        refine ⟨decide_eq_true (by omega), ?_⟩
        simp [List.isEmpty_iff, hst]
      refine ⟨h1, ?_, ?_⟩
      · simp only
        omega
      · intro _
        simp only
        have hb : (joinSpace (st.cur ++ [s])).length ≤ cs + 1 := by omega
        exact le_trans hb (le_max_left _ _)

/-- Every window of the fallback loop has at most `cs` characters. -/
theorem sliceLoop_length_le (t : List Char) (cs ov : Nat) :
    ∀ (fuel start : Nat) (w : List Char), w ∈ sliceLoop t cs ov fuel start → w.length ≤ cs := by
  intro fuel
  induction fuel with
  | zero => intro start w hw; simp [sliceLoop] at hw
  | succ m ih =>
    intro start w hw
    unfold sliceLoop at hw
    by_cases hlt : start < t.length
    · rw [if_pos hlt] at hw
      rcases List.mem_cons.mp hw with rfl | hw'
      · exact le_trans (List.length_take_le _ _) le_rfl
      · by_cases hend : t.length ≤ start + cs
        · rw [if_pos hend] at hw'
          simp at hw'
        · rw [if_neg hend] at hw'
          exact ih _ w hw'
    · rw [if_neg hlt] at hw
      simp at hw

/-- C2 amended: every chunk `chunk_text` produces has length at most
`max (target_size + 1) (overlap + 1 + M)` where `M` is the longest sentence
length of the input.  (A chunk opened with trailing-sentence overlap starts
at up to `overlap + 1 + M` characters without any size check, and the
`current_length` book-keeping over-counts by one, so multi-sentence chunks
can exceed `target_size` even when no single sentence does.) -/
theorem C2_chunk_length_bound (t : String) (cs ov : Nat) :
    ∀ c ∈ chunk_text t cs ov,
      c.length ≤ max (cs + 1) (ov + 1 + maxSentenceLen t.data) := by
  intro c hc
  unfold chunk_text at hc
  rcases List.mem_map.mp hc with ⟨lc, hlc, rfl⟩
  show lc.length ≤ _
  unfold chunkTextList at hlc
  by_cases h0 : t.data = []
  · rw [if_pos h0] at hlc
    simp at hlc
  · rw [if_neg h0] at hlc
    by_cases hsent : sentencesOfList t.data = []
    · simp only [if_pos hsent] at hlc
      exact le_trans (sliceLoop_length_le t.data cs ov _ _ lc hlc) (by omega)
    · simp only [if_neg hsent] at hlc
      have hM := length_le_maxSentenceLen t.data
      have hinv :
          (∀ c ∈ ((sentencesOfList t.data).foldl (chunkStep cs ov) ⟨[], [], 0⟩).chunks,
              c.length ≤ max (cs + 1) (ov + 1 + maxSentenceLen t.data)) ∧
          (joinSpace ((sentencesOfList t.data).foldl (chunkStep cs ov) ⟨[], [], 0⟩).cur).length ≤
            ((sentencesOfList t.data).foldl (chunkStep cs ov) ⟨[], [], 0⟩).curLen ∧
          (((sentencesOfList t.data).foldl (chunkStep cs ov) ⟨[], [], 0⟩).cur ≠ [] →
            (joinSpace ((sentencesOfList t.data).foldl (chunkStep cs ov) ⟨[], [], 0⟩).cur).length ≤
              max (cs + 1) (ov + 1 + maxSentenceLen t.data)) := by
        refine foldl_invariant_mem
          (fun st => (∀ c ∈ st.chunks, c.length ≤ max (cs + 1) (ov + 1 + maxSentenceLen t.data)) ∧
            (joinSpace st.cur).length ≤ st.curLen ∧
            (st.cur ≠ [] → (joinSpace st.cur).length ≤ max (cs + 1) (ov + 1 + maxSentenceLen t.data)))
          (chunkStep cs ov) (sentencesOfList t.data) ⟨[], [], 0⟩
          ⟨by simp, by simp [joinSpace], by simp⟩ ?_
        intro st s hsmem hst
        exact chunkStep_inv cs ov (maxSentenceLen t.data) st s (hM s hsmem) hst.1 hst.2.1 hst.2.2
      rcases List.mem_append.mp hlc with h | h
      · exact hinv.1 lc h
      · by_cases hcur : ((sentencesOfList t.data).foldl (chunkStep cs ov) ⟨[], [], 0⟩).cur = []
        · rw [if_pos hcur] at h
          simp at h
        · rw [if_neg hcur] at h
          rw [List.mem_singleton.mp h]
          exact hinv.2.2 hcur

/-- C2 counterexample: with `target_size = 10, overlap = 5` the input
`"abc. def. ghijkl."` produces the chunk `"def. ghijkl."` of length 12 — it
exceeds the target size yet consists of two sentences, neither of which
alone exceeds the target, refuting the claim that only a single over-long
sentence can exceed `target_size`. -/
theorem C2_counterexample :
    chunk_text "abc. def. ghijkl." 10 5 = ["abc. def.", "def. ghijkl."] ∧
    ¬ (∀ c ∈ chunk_text "abc. def. ghijkl." 10 5,
        c.length ≤ 10 ∨ (c.data ∈ sentencesOfList "abc. def. ghijkl.".data ∧ 10 < c.length)) ∧
    (∀ s ∈ sentencesOfList "abc. def. ghijkl.".data, s.length ≤ 10) :=
  ⟨by decide, by decide, by decide⟩

/-- Witness for the amended C2 at the counterexample input: the over-long
chunk respects the amended bound. -/
theorem C2_chunk_length_bound_witness :
    ("def. ghijkl." : String).length ≤ max (10 + 1) (5 + 1 + maxSentenceLen "abc. def. ghijkl.".data) :=
  C2_chunk_length_bound "abc. def. ghijkl." 10 5 "def. ghijkl." (by decide)

/-! ## Claim C8 -/

/-- Characterisation of the fallback loop for `ov < cs`: starting at
`start < len` with enough fuel, the emitted windows are exactly the
substrings starting at `start + i * (cs - ov)` of length at most `cs`. -/
theorem sliceLoop_spec (t : List Char) (cs ov : Nat) (h : ov < cs) :
    ∀ (fuel start : Nat), start < t.length → t.length - start ≤ fuel →
      sliceLoop t cs ov fuel start =
        (List.range (numWindows (t.length - start) cs ov)).map
          (fun i => (t.drop (start + i * (cs - ov))).take cs) := by
  intro fuel
  induction fuel with
  | zero => intro start h1 h2; omega
  | succ m ih =>
    intro start h1 h2
    have hstep : 0 < cs - ov := by omega
    unfold sliceLoop
    rw [if_pos h1]
    by_cases hend : t.length ≤ start + cs
    · rw [if_pos hend]
      have hnum : numWindows (t.length - start) cs ov = 1 := by
        unfold numWindows
        have e2 : t.length - start - cs = 0 := by omega
        rw [e2]
        rw [Nat.div_eq_of_lt (by omega)]
      rw [hnum]
      have e0 : start + 0 * (cs - ov) = start := by omega
      simp only [show List.range 1 = [0] from rfl, List.map_cons, List.map_nil, e0]
    · rw [if_neg hend]
      have harith : start + cs - ov = start + (cs - ov) := by omega
      rw [harith, ih (start + (cs - ov)) (by omega) (by omega)]
      have hnum : numWindows (t.length - start) cs ov =
          numWindows (t.length - (start + (cs - ov))) cs ov + 1 := by
        unfold numWindows
        by_cases hA2 : t.length - start - cs ≤ cs - ov
        · have e1 : t.length - start - cs + (cs - ov) - 1 =
              (t.length - start - cs - 1) + (cs - ov) := by omega
          have e2 : t.length - (start + (cs - ov)) - cs = 0 := by omega
          rw [e1, Nat.add_div_right _ hstep, e2]
          rw [Nat.div_eq_of_lt (by omega), Nat.div_eq_of_lt (by omega)]
        · have e1 : t.length - start - cs + (cs - ov) - 1 =
              (t.length - start - cs - 1) + (cs - ov) := by omega
          have e2 : t.length - (start + (cs - ov)) - cs + (cs - ov) - 1 =
              t.length - start - cs - 1 := by omega
          rw [e1, Nat.add_div_right _ hstep, e2]
      rw [hnum, List.range_succ_eq_map, List.map_cons, List.map_map]
      congr 1
      · have e0 : start + 0 * (cs - ov) = start := by omega
        rw [e0]
      · apply List.map_congr_left
        intro i _
        have e3 : start + (i + 1) * (cs - ov) = start + (cs - ov) + i * (cs - ov) := by
          rw [Nat.succ_mul]
          omega
        simp only [Function.comp_apply, Nat.succ_eq_add_one, e3]

/-- C8 amended: the fallback branch of `chunk_text` is reached exactly when
no sentence fragment survives trimming (for a non-empty text this means the
text is all whitespace); on that branch with `overlap < target_size` the
output is the finite window list in which window `i` starts at
`i * (target_size - overlap)` and holds at most `target_size` characters. -/
theorem C8_fallback_slicing (t : String) (cs ov : Nat)
    (h1 : ov < cs) (h2 : t.data ≠ []) (h3 : sentencesOfList t.data = []) :
    chunk_text t cs ov =
      (List.range (numWindows t.data.length cs ov)).map
        (fun i => String.mk ((t.data.drop (i * (cs - ov))).take cs)) := by
  unfold chunk_text chunkTextList
  rw [if_neg h2]
  simp only [h3, eq_self_iff_true, if_true]
  unfold sliceFallback
  rw [sliceLoop_spec t.data cs ov h1 t.data.length 0 (List.length_pos.mpr h2) (by omega)]
  rw [Nat.sub_zero, List.map_map]
  apply List.map_congr_left
  intro i _
  simp

/-- C8 counterexample: the non-empty text `"abcdef"` contains no sentence
boundary, yet `chunk_text` does *not* fall back to fixed-width slicing — the
whole text is treated as one (trimmed, non-empty) sentence and returned as a
single chunk, while the claimed window slicing would give three windows. -/
theorem C8_counterexample :
    chunk_text "abcdef" 3 1 = ["abcdef"] ∧
    chunk_text "abcdef" 3 1 ≠
      (List.range (numWindows "abcdef".data.length 3 1)).map
        (fun i => String.mk (("abcdef".data.drop (i * (3 - 1))).take 3)) ∧
    (List.range (numWindows "abcdef".data.length 3 1)).map
        (fun i => String.mk (("abcdef".data.drop (i * (3 - 1))).take 3)) =
      ["abc", "cde", "ef"] :=
  ⟨by decide, by decide, by decide⟩

/-- Witness for the amended C8 on the all-whitespace text `"  "`. -/
theorem C8_fallback_slicing_witness :
    chunk_text "  " 3 1 =
      (List.range (numWindows "  ".data.length 3 1)).map
        (fun i => String.mk (("  ".data.drop (i * (3 - 1))).take 3)) :=
  C8_fallback_slicing "  " 3 1 (by decide) (by decide) (by decide)
